import Mathlib

/-!
Verification of the pre-commit reservation-conflict guard
(`src/.beads/hooks/hooks.d/pre-commit/50-agent-mail.py`).

The guard is embedded shallowly: environment variables become an explicit
`Env` record, the reservation store becomes a list of parsed documents,
the two `git diff` subprocess outputs become `Option String` inputs
(`none` models a raised exception), the clock becomes an integer `now`,
and ISO-8601 timestamp parsing (`datetime.fromisoformat`, an external
library) becomes an abstract parameter `piso : String → Option Int`.
The external gitignore pattern engine (`pathspec.PathSpec`) and the
`fnmatch` fallback are modelled from the spec (section 4.2), since their
code is not part of this repository.
-/

set_option maxRecDepth 8000

/- ### String helpers (Python string primitives used by the guard) -/

/-- Python-style whitespace test used by `str.strip()`. -/
def isPySpace (c : Char) : Bool :=
  c == ' ' || c == '\t' || c == '\n' || c == '\r' || c == '\x0b' || c == '\x0c'

/-- Embedding of Python `str.strip()`. -/
def pyStrip (s : String) : String :=
  ⟨((s.data.dropWhile isPySpace).reverse.dropWhile isPySpace).reverse⟩

/-- ASCII lower-casing of one character, as Python `str.lower()` does on ASCII. -/
def lowerChar (c : Char) : Char :=
  if 'A' ≤ c ∧ c ≤ 'Z' then Char.ofNat (c.toNat + 32) else c

/-- Embedding of Python `str.lower()` (ASCII fragment). -/
def pyLower (s : String) : String := ⟨s.data.map lowerChar⟩

/-- Embedding of Python `str.replace('\\', '/')` as used on patterns and paths. -/
def repSlash (s : String) : String :=
  ⟨s.data.map (fun c => if c == '\\' then '/' else c)⟩

/-- Slash test. -/
def isSlash (c : Char) : Bool := c == '/'

/-- Embedding of Python `str.lstrip('/')`. -/
def lstripSlashes (s : String) : String := ⟨s.data.dropWhile isSlash⟩

/-- List-level prefix test (used for `str.startswith`). -/
def listStarts : List Char → List Char → Bool
  | [], _ => true
  | _ :: _, [] => false
  | c :: cs, d :: ds => c == d && listStarts cs ds

/-- Embedding of Python `s.startswith(pre)`. -/
def strStarts (pre s : String) : Bool := listStarts pre.data s.data

/-- Embedding of Python `s.endswith(suf)`. -/
def strEnds (suf s : String) : Bool := listStarts suf.data.reverse s.data.reverse

/-- Python `a or b` on strings: `b` when `a` is empty, else `a`. -/
def pyOr (a b : String) : String := if a = "" then b else a

/-- Python `x.get(key) or ''` followed by `.strip()`, on an optional field. -/
def pyGetStr (o : Option String) : String := pyStrip (o.getD "")

/- ### Gitignore-style pattern engine.

Modelled from the spec: the external `pathspec.PathSpec.from_lines("gitignore", …)`
engine (not part of this repository). Spec section 4.2: `*` matches within a
path segment, `**` matches across segments, a trailing `/` anchors a directory,
a pattern with no slash matches the basename at any depth, `!` negation is
supported with gitignore last-match-wins resolution. -/

/-- All suffixes of a list, longest first (the list itself comes first). -/
def suffixes {α : Type} : List α → List (List α)
  | [] => [[]]
  | x :: t => (x :: t) :: suffixes t

/-- Shell-glob match of a pattern over a sequence of characters:
`*` matches any run of characters, `?` any single character,
anything else literally. Used both for single gitignore path segments
(which contain no slash) and, over a whole path, for the `fnmatch` fallback. -/
def globChars : List Char → List Char → Bool
  | [], s => s.isEmpty
  | '*' :: ps, ss => (suffixes ss).any (fun t => globChars ps t)
  | '?' :: ps, ss =>
      match ss with
      | [] => false
      | _ :: t => globChars ps t
  | c :: ps, ss =>
      match ss with
      | [] => false
      | d :: t => c == d && globChars ps t

/-- Split a character list on a separator character (Python `str.split(sep)`). -/
def splitChar (sep : Char) : List Char → List (List Char)
  | [] => [[]]
  | c :: cs =>
      let rest := splitChar sep cs
      if c == sep then [] :: rest
      else
        match rest with
        | [] => [[c]]
        | r :: rs => (c :: r) :: rs

/-- Segment-list matching for gitignore patterns: pattern segments against
path segments, where the segment `**` matches any number of path segments and
a fully consumed pattern matches any remaining path (directory containment).
The flag `d` records a directory-only pattern (trailing slash): it requires a
nonempty remainder below the matched directory. -/
def matchSegsD (d : Bool) : List (List Char) → List (List Char) → Bool
  | [], ss =>
      match ss with
      | [] => !d
      | _ :: _ => true
  | g :: ps, ss =>
      if g == ['*', '*'] then (suffixes ss).any (fun t => matchSegsD d ps t)
      else
        match ss with
        | [] => false
        | s :: t => globChars g s && matchSegsD d ps t

/-- Modelled from the spec: match of one gitignore pattern body (negation
already removed) against a slash-normalized path, per spec section 4.2.
Leading slashes only anchor the pattern; a pattern whose body contains a
slash is anchored; otherwise it matches the basename at any depth, rendered
as an implicit leading `**` segment. A degenerate all-slash pattern is
treated as matching everything (the concrete engine errors out on it, which
the guard converts into matching every path in phase A). -/
def gmStripped (q : String) : List Char := q.data.dropWhile isSlash

/-- Directory-only flag of a pattern: a trailing slash. -/
def gmDir (q : String) : Bool := decide ((gmStripped q).getLast? = some '/')

/-- Pattern body: leading anchoring slashes and one trailing slash removed. -/
def gmBody (q : String) : List Char :=
  if gmDir q then (gmStripped q).dropLast else (gmStripped q)

/-- A pattern is anchored when it starts with a slash or its body contains one. -/
def gmAnchored (q : String) : Bool :=
  decide (q.data.head? = some '/') || (gmBody q).contains '/'

def gitMatchesCore (q p : String) : Bool :=
  if (gmBody q).isEmpty then true
  else
    matchSegsD (gmDir q)
      (if gmAnchored q then splitChar '/' (gmBody q)
       else ['*', '*'] :: splitChar '/' (gmBody q))
      (splitChar '/' p.data)

/-- Modelled from the spec: one line of a gitignore pattern file; a leading
`!` negates. Returns `none` when the line does not match the path, and
`some include` when it matches. -/
def lineMatchRes (l p : String) : Option Bool :=
  if l.data.head? = some '!' then
    if gitMatchesCore ⟨l.data.tail⟩ p then some false else none
  else if gitMatchesCore l p then some true else none

/-- Modelled from the spec: `PathSpec.from_lines("gitignore", lines).match_file p`,
with gitignore last-match-wins resolution over the lines. -/
def psMatchFile (lines : List String) (p : String) : Bool :=
  (lines.foldl
    (fun acc l =>
      match lineMatchRes l p with
      | none => acc
      | some b => some b)
    none).getD false

/-- Modelled from the spec: the shell-style `fnmatch.fnmatch(name, pattern)`
fallback, which has no cross-segment or negation support — `*` crosses
segment boundaries freely. -/
def fnmatchB (name patt : String) : Bool := globChars patt.data name.data

/- ### Data model: reservation records and the store -/

/-- One raw reservation record as read from a JSON document: the fields the
guard extracts with `dict.get`. `exclusive` is the truthiness of the
`exclusive` value, defaulting to true when absent; `id` is the stringified
`id` value when present and not null. -/
structure RawRecord where
  id : Option String
  path_pattern : Option String
  agent : Option String
  exclusive : Bool
  expires_ts : Option String
deriving DecidableEq

/-- One entry of a parsed document: either a structured mapping or some
other JSON value (skipped by the guard). -/
inductive RecVal where
  | dict (r : RawRecord)
  | other
deriving DecidableEq

/-- Parsed content of one store document: a JSON array yields its elements,
any other JSON value yields itself as a single record. -/
inductive DocContent where
  | single (v : RecVal)
  | arr (vs : List RecVal)
deriving DecidableEq

/-- One file of the reservation store directory: its name (the guard only
reads `.json` files) and its parsed content, `none` when reading or JSON
parsing raised. -/
structure Document where
  name : String
  content : Option DocContent
deriving DecidableEq

/-- Records yielded by one parsed document (`data if isinstance(data, list) else [data]`). -/
def recsOf : DocContent → List RecVal
  | .single v => [v]
  | .arr vs => vs

/-- One compiled reservation pattern, as the tuple
`(spec, patt, patt_norm, holder)` the guard appends to `compiled_patterns`.
The compiled `spec` is modelled by the pattern lines it was built from,
`none` when the engine is unavailable. -/
structure CompiledEntry where
  spec : Option (List String)
  patt : String
  pattNorm : String
  holder : String
deriving DecidableEq

/-- Loader state: `seen_ids`, `compiled_patterns` and `all_pattern_strings`. -/
structure LoadState where
  seenIds : List String
  compiled : List CompiledEntry
  allPatternStrings : List String
deriving DecidableEq

/-- Initial loader state. -/
def emptyLoadState : LoadState := ⟨[], [], []⟩

/-- Virtual-namespace test on a stripped pattern (`tool://`, `resource://`, `service://`). -/
def hasVirtualNS (patt : String) : Bool :=
  strStarts "tool://" patt || strStarts "resource://" patt || strStarts "service://" patt

/-- Embedding of `_parse_iso` composed with the timestamp comparison: the
empty string parses to `none` (Python: `if not value: return None`); any
other string is handed to the abstract ISO-8601 parser `piso`,
which returns a UTC instant as an integer, or `none` when unparseable. -/
def parseIsoOpt (piso : String → Option Int) (value : String) : Option Int :=
  if value = "" then none else piso value

/-- Embedding of `_not_expired`: unparseable or absent timestamps never
expire; otherwise the reservation is live iff the parsed instant is
strictly later than `now`. -/
def notExpired (piso : String → Option Int) (now : Int) (e : String) : Bool :=
  match parseIsoOpt piso e with
  | none => true
  | some t => decide (now < t)

/-- Embedding of `_compile_one`: backslashes are normalized to slashes and
the single-line spec is built when the engine is available (`ps`); the
model's engine accepts every line, so compilation never fails. -/
def compileOne (ps : Bool) (patt : String) : Option (List String) :=
  if ps then some [repSlash patt] else none

/-- Body of the per-record loader loop after the `seen_ids` check
(lines 125–144 of the guard): pattern extraction, the empty-pattern and
virtual-namespace skips, the exclusivity, self-ownership and expiry
filters, then compilation and appending. -/
def processBody (ps : Bool) (agentName : String) (piso : String → Option Int) (now : Int)
    (st : LoadState) (r : RawRecord) : LoadState :=
  let patt := pyGetStr r.path_pattern
  if patt = "" then st
  else if hasVirtualNS patt then st
  else
    let holder := pyGetStr r.agent
    let expires := pyGetStr r.expires_ts
    if !r.exclusive then st
    else if holder ≠ "" ∧ holder = agentName then st
    else if !(notExpired piso now expires) then st
    else
      { st with
        compiled := st.compiled ++
          [⟨compileOne ps patt, patt, lstripSlashes (repSlash patt), holder⟩],
        allPatternStrings := st.allPatternStrings ++ [lstripSlashes (repSlash patt)] }

/-- One record of the loader loop (lines 116–144): non-mapping records are
skipped; a record with an `id` already in `seen_ids` is skipped, a fresh
`id` is recorded before any filtering. -/
def processRecord (ps : Bool) (agentName : String) (piso : String → Option Int) (now : Int)
    (st : LoadState) (v : RecVal) : LoadState :=
  match v with
  | .other => st
  | .dict r =>
    match r.id with
    | some rid =>
      if rid ∈ st.seenIds then st
      else processBody ps agentName piso now { st with seenIds := rid :: st.seenIds } r
    | none => processBody ps agentName piso now st r

/-- One document of the store enumeration (lines 108–115): non-`.json`
names are skipped, unreadable or unparseable documents are skipped, the
records of a parsed document are folded in order. -/
def processDoc (ps : Bool) (agentName : String) (piso : String → Option Int) (now : Int)
    (st : LoadState) (d : Document) : LoadState :=
  if !(strEnds ".json" d.name) then st
  else
    match d.content with
    | none => st
    | some c => (recsOf c).foldl (processRecord ps agentName piso now) st

/-- The whole loader (lines 103–147): `none` models the outer
`except` firing (e.g. a missing store directory), which resets both lists. -/
def loadStore (ps : Bool) (agentName : String) (piso : String → Option Int) (now : Int)
    (store : Option (List Document)) : LoadState :=
  match store with
  | none => emptyLoadState
  | some docs => docs.foldl (processDoc ps agentName piso now) emptyLoadState

/- ### Pattern matcher: phases A and B -/

/-- Phase 2 of the guard (lines 149–155): the union spec over all
normalized pattern strings, built only when the engine is available and
some pattern survived the loader. -/
def buildUnion (ps : Bool) (allPatterns : List String) : Option (List String) :=
  match allPatterns with
  | [] => none
  | _ :: _ => if ps then some allPatterns else none

/-- Path normalization before matching: `p.replace('\\','/').lstrip('/')`. -/
def normPath (p : String) : String := lstripSlashes (repSlash p)

/-- Detailed per-pattern test of one normalized path against one compiled
entry (line 167): the compiled spec when the engine was available, the
`fnmatch` fallback over the normalized pattern otherwise. -/
def entryMatches (e : CompiledEntry) (norm : String) : Bool :=
  match e.spec with
  | some lines => psMatchFile lines norm
  | none => fnmatchB norm e.pattNorm

/-- Phase B for one candidate path (lines 165–169): every matching compiled
pattern contributes one conflict `(original pattern, original path, holder)`. -/
def detailedMatches (cp : List CompiledEntry) (p : String) : List (String × String × String) :=
  cp.foldl
    (fun acc e => if entryMatches e (normPath p) then acc ++ [(e.patt, p, e.holder)] else acc)
    []

/-- Phase 3 of the guard (lines 157–169): for each path, the union matcher
may reject outright (phase A); otherwise phase B attributes conflicts.
With no compiled patterns the loop body never runs. -/
def allConflicts (cp : List CompiledEntry) (u : Option (List String)) (paths : List String) :
    List (String × String × String) :=
  match cp with
  | [] => []
  | _ :: _ =>
    paths.foldl
      (fun acc p =>
        match u with
        | some lines => if !(psMatchFile lines (normPath p)) then acc else acc ++ detailedMatches cp p
        | none => acc ++ detailedMatches cp p)
      []

/-- Following the spec's words (section 4.2, the claim's reference
semantics): test every candidate path directly against every effective
pattern individually and collect every match, with no phase-A union
rejection and no empty-list shortcut. -/
def directConflicts (cp : List CompiledEntry) (paths : List String) :
    List (String × String × String) :=
  paths.foldl (fun acc p => acc ++ detailedMatches cp p) []

/- ### Configuration, staged-path collection and the decision engine -/

/-- The five environment variables the guard reads; `none` means unset. -/
structure Env where
  worktreesEnabled : Option String
  gitIdentityEnabled : Option String
  agentMailGuardMode : Option String
  agentMailBypass : Option String
  agentName : Option String
deriving DecidableEq

/-- The truthy strings of the gate and bypass checks. -/
def truthySet : List String := ["1", "true", "t", "yes", "y"]

/-- Stripped, lowered membership in the truthy set. -/
def isTruthy (s : String) : Bool := decide (pyLower (pyStrip s) ∈ truthySet)

/-- The `GATE` expression (line 21): Python `or` over the two gets, each
defaulting to the string "0" when the variable is unset. -/
def gateValue (env : Env) : String :=
  pyOr (pyOr (env.worktreesEnabled.getD "0") (env.gitIdentityEnabled.getD "0")) "0"

/-- The gate check (line 24). -/
def gateEnabled (env : Env) : Bool := isTruthy (gateValue env)

/-- The resolved `MODE` string (line 28). -/
def modeOf (m : Option String) : String := pyLower (pyStrip (pyOr (m.getD "block") "block"))

/-- The advisory-mode set. -/
def advisorySet : List String := ["warn", "advisory", "adv"]

/-- `ADVISORY` (line 29). -/
def advisoryOf (m : Option String) : Bool := decide (modeOf m ∈ advisorySet)

/-- The bypass check (line 32). -/
def bypassActive (b : Option String) : Bool := isTruthy (pyOr (b.getD "0") "0")

/-- Parsing of the NUL-separated `git diff --cached --name-only` output
(lines 45–48): nonempty pieces become staged paths. -/
def parseNameOnly (d : String) : List String :=
  ((splitChar (Char.ofNat 0) d.data).map (fun l => (⟨l⟩ : String))).filter (fun p => p ≠ "")

/-- The rename-expansion walk over the NUL-separated
`git diff --cached --name-status -M` pieces (lines 53–66): an `R…` status
followed by at least two pieces consumes old and new names, any other
status consumes one path. -/
def statusWalk : List String → List String
  | [] => []
  | status :: rest =>
    if strStarts "R" status then
      match rest with
      | oldp :: newp :: t =>
          ((if oldp ≠ "" then [oldp] else []) ++ (if newp ≠ "" then [newp] else [])) ++
            statusWalk t
      | [pth] => if pth ≠ "" then [pth] else []
      | [] => []
    else
      match rest with
      | pth :: t => (if pth ≠ "" then [pth] else []) ++ statusWalk t
      | [] => []

/-- Parsing of the second git invocation's output: empty pieces are
filtered before the walk (line 53). -/
def parseNameStatus (d : String) : List String :=
  statusWalk (((splitChar (Char.ofNat 0) d.data).map (fun l => (⟨l⟩ : String))).filter
    (fun x => x ≠ ""))

/-- The staged-path collection (lines 41–68): `none` models the subprocess
call raising. The surrounding `try` swallows any exception and keeps the
paths gathered so far: a failing first call leaves the list empty, a
failing second call keeps the first call's paths. -/
def collectPaths (o1 o2 : Option String) : List String :=
  match o1 with
  | none => []
  | some d1 =>
    let ps1 := parseNameOnly d1
    match o2 with
    | none => ps1
    | some d2 => ps1 ++ parseNameStatus d2

/-- Outcome of one guard run: the process exit status and the lines written
to the error stream, in order. -/
structure RunResult where
  exitCode : Nat
  stderr : List String
deriving DecidableEq

/-- Rendering of one conflict (line 173). -/
def conflictLine (c : String × String × String) : String :=
  "- " ++ c.2.1 ++ " matches " ++ c.1 ++ " (holder: " ++ c.2.2 ++ ")"

/-- The summary header (line 171). -/
def conflictHeader : String := "Exclusive file_reservation conflicts detected"

/-- The decision engine (lines 170–177): no conflicts exits 0 silently;
otherwise the header plus the first 10 conflicts are printed and the exit
status is 0 in advisory mode, 1 in blocking mode. -/
def decideOutcome (advisory : Bool) (cs : List (String × String × String)) : RunResult :=
  match cs with
  | [] => ⟨0, []⟩
  | _ :: _ => ⟨if advisory then 0 else 1, conflictHeader :: (cs.take 10).map conflictLine⟩

/-- The bypass notice (line 33). -/
def bypassNotice : String := "[pre-commit] bypass enabled via AGENT_MAIL_BYPASS=1"

/-- The missing-identity error (line 37). -/
def agentMissingMsg : String := "[pre-commit] AGENT_NAME environment variable is required."

/-- The guard's run after the gate check passed (lines 28–177): bypass,
agent identity, staged-path collection, empty-path shortcut, loader, union
build, conflict detection, decision. -/
def guardAfterGate (advisory : Bool) (bypassVar agentVar : Option String)
    (o1 o2 : Option String) (store : Option (List Document))
    (ps : Bool) (piso : String → Option Int) (now : Int) : RunResult :=
  if bypassActive bypassVar then ⟨0, [bypassNotice]⟩
  else
    match agentVar with
    | none => ⟨1, [agentMissingMsg]⟩
    | some a =>
      if a = "" then ⟨1, [agentMissingMsg]⟩
      else
        match collectPaths o1 o2 with
        | [] => ⟨0, []⟩
        | p0 :: prest =>
          let st := loadStore ps a piso now store
          let u := buildUnion ps st.allPatternStrings
          decideOutcome advisory (allConflicts st.compiled u (p0 :: prest))

/-- The whole guard run, in the source's control order: gate check, then
mode resolution and the rest of the pipeline. -/
def runGuard (env : Env) (o1 o2 : Option String) (store : Option (List Document))
    (ps : Bool) (piso : String → Option Int) (now : Int) : RunResult :=
  if !(gateEnabled env) then ⟨0, []⟩
  else
    guardAfterGate (advisoryOf env.agentMailGuardMode) env.agentMailBypass env.agentName
      o1 o2 store ps piso now

/- ### Derived definitions used by the verification -/

/-- Shape invariant of a compiled entry produced by the loader: its spec and
normalized pattern are derived from its original pattern string. -/
def EntryWF (ps : Bool) (e : CompiledEntry) : Prop :=
  e.spec = compileOne ps e.patt ∧ e.pattNorm = lstripSlashes (repSlash e.patt)

/-- Loader-state invariant: the union's pattern strings are exactly the
normalized patterns of the compiled entries, in order, and every entry is
well-shaped. -/
def StateWF (ps : Bool) (st : LoadState) : Prop :=
  st.allPatternStrings = st.compiled.map (fun e => e.pattNorm) ∧
  ∀ e ∈ st.compiled, EntryWF ps e

/-- Fifteen pairwise distinct conflicts, for the C4 witness. -/
def sampleConflicts15 : List (String × String × String) :=
  [("p1", "f1", "h1"), ("p2", "f2", "h2"), ("p3", "f3", "h3"), ("p4", "f4", "h4"),
   ("p5", "f5", "h5"), ("p6", "f6", "h6"), ("p7", "f7", "h7"), ("p8", "f8", "h8"),
   ("p9", "f9", "h9"), ("p10", "f10", "h10"), ("p11", "f11", "h11"), ("p12", "f12", "h12"),
   ("p13", "f13", "h13"), ("p14", "f14", "h14"), ("p15", "f15", "h15")]

/-- Store with a negation pattern in the effective set, refuting C3 as stated. -/
def negStore : Option (List Document) :=
  some [⟨"r.json", some (.arr
    [.dict ⟨some "1", some "*.py", some "bob", true, none⟩,
     .dict ⟨some "2", some "!foo.py", some "bob", true, none⟩])⟩]

/-- Negation-free store for the C3 witness. -/
def posStore : Option (List Document) :=
  some [⟨"r.json", some (.arr
    [.dict ⟨some "1", some "src/*.py", some "bob", true, none⟩,
     .dict ⟨some "2", some "docs/**", some "carol", true, none⟩])⟩]

/- ### Helper lemmas -/

/-- A list never equals itself extended by one element. -/
theorem append_singleton_ne {α : Type} (l : List α) (x : α) : l ++ [x] ≠ l := by
  intro h
  have := congrArg List.length h
  simp at this

/-- Fold preservation of a predicate. -/
theorem foldl_preserve {σ α : Type} (P : σ → Prop) (f : σ → α → σ)
    (h : ∀ s x, P s → P (f s x)) :
    ∀ (l : List α) (s : σ), P s → P (List.foldl f s l) := by
  intro l
  induction l with
  | nil => intro s hs; exact hs
  | cons x t ih => intro s hs; exact ih (f s x) (h s x hs)

/-- The loader body never touches `seen_ids`. -/
theorem processBody_seen (ps : Bool) (a : String) (piso : String → Option Int) (now : Int)
    (st : LoadState) (r : RawRecord) :
    (processBody ps a piso now st r).seenIds = st.seenIds := by
  simp only [processBody]
  repeat' split
  all_goals rfl

/-- The loader body never touches `compiled` in a skip branch, and in the
append branch extends it by exactly one entry. -/
theorem processRecord_seen_mono (ps : Bool) (a : String) (piso : String → Option Int)
    (now : Int) (st : LoadState) (v : RecVal) :
    st.seenIds ⊆ (processRecord ps a piso now st v).seenIds := by
  cases v with
  | other => exact fun x hx => hx
  | dict r =>
    cases hid : r.id with
    | none =>
      simp only [processRecord, hid]
      rw [processBody_seen]
      exact fun x hx => hx
    | some rid =>
      simp only [processRecord, hid]
      by_cases hmem : rid ∈ st.seenIds
      · rw [if_pos hmem]
        exact fun x hx => hx
      · rw [if_neg hmem, processBody_seen]
        exact fun x hx => List.mem_cons_of_mem _ hx

/-- Seen ids only grow along the record fold. -/
theorem foldRecords_seen_mono (ps : Bool) (a : String) (piso : String → Option Int)
    (now : Int) :
    ∀ (l : List RecVal) (st : LoadState),
      st.seenIds ⊆ (List.foldl (processRecord ps a piso now) st l).seenIds := by
  intro l
  induction l with
  | nil => intro st x hx; exact hx
  | cons v t ih =>
    intro st x hx
    exact ih (processRecord ps a piso now st v) (processRecord_seen_mono ps a piso now st v hx)

/-- Processing a mapping record with an id leaves that id seen. -/
theorem processRecord_mem_seen (ps : Bool) (a : String) (piso : String → Option Int)
    (now : Int) (st : LoadState) (r : RawRecord) (rid : String)
    (hid : r.id = some rid) :
    rid ∈ (processRecord ps a piso now st (.dict r)).seenIds := by
  simp only [processRecord, hid]
  by_cases hmem : rid ∈ st.seenIds
  · rw [if_pos hmem]
    exact hmem
  · rw [if_neg hmem, processBody_seen]
    exact List.mem_cons_self _ _

/-- A record whose id has been seen is skipped entirely. -/
theorem processRecord_skip (ps : Bool) (a : String) (piso : String → Option Int)
    (now : Int) (st : LoadState) (r : RawRecord) (rid : String)
    (hid : r.id = some rid) (hmem : rid ∈ st.seenIds) :
    processRecord ps a piso now st (.dict r) = st := by
  simp only [processRecord, hid]
  rw [if_pos hmem]

/-- Once a record with an id occurs in a record list, the id is seen after
folding that list in, whatever the record's other fields. -/
theorem foldRecords_seen_of_mem (ps : Bool) (a : String) (piso : String → Option Int)
    (now : Int) (r : RawRecord) (rid : String) (hid : r.id = some rid) :
    ∀ (l : List RecVal) (st : LoadState), RecVal.dict r ∈ l →
      rid ∈ (List.foldl (processRecord ps a piso now) st l).seenIds := by
  intro l
  induction l with
  | nil => intro st h; cases h
  | cons v t ih =>
    intro st h
    rcases List.mem_cons.mp h with h | h
    · subst h
      rw [List.foldl_cons]
      exact foldRecords_seen_mono ps a piso now t _
        (processRecord_mem_seen ps a piso now st r rid hid)
    · exact ih _ h

/-- The conflict report lines never depend on the advisory flag. -/
theorem decideOutcome_stderr_eq (a1 a2 : Bool) (cs : List (String × String × String)) :
    (decideOutcome a1 cs).stderr = (decideOutcome a2 cs).stderr := by
  cases cs <;> rfl

/- ### Claim theorems -/

/-- Claim C9 (confirmed): the `seen_ids` check runs before any effective-set
filtering, so once any structured record carrying an id has been enumerated,
every later record with the same id is skipped entirely — even when the
first record was itself filtered out of the effective set. -/
theorem C9_dedup_first_seen :
    ∀ (ps : Bool) (a : String) (piso : String → Option Int) (now : Int)
      (st : LoadState) (l1 post : List RecVal) (r r2 : RawRecord) (rid : String),
      r.id = some rid → r2.id = some rid → RecVal.dict r ∈ l1 →
      List.foldl (processRecord ps a piso now) st (l1 ++ RecVal.dict r2 :: post) =
        List.foldl (processRecord ps a piso now) st (l1 ++ post) := by
  intro ps a piso now st l1 post r r2 rid h1 h2 hmem
  rw [List.foldl_append, List.foldl_append, List.foldl_cons]
  rw [processRecord_skip ps a piso now _ r2 rid h2
    (foldRecords_seen_of_mem ps a piso now r rid h1 l1 st hmem)]

/-- Witness for C9: a non-exclusive record with id `x` (itself excluded from
the effective set) still shadows a later exclusive foreign record with the
same id, which therefore never enters the effective set. -/
theorem C9_witness :
    (List.foldl (processRecord true "alice" (fun _ => none) 0) emptyLoadState
        ([RecVal.dict ⟨some "x", some "a.txt", some "alice", false, none⟩] ++
          RecVal.dict ⟨some "x", some "b.txt", some "bob", true, none⟩ :: []) =
      List.foldl (processRecord true "alice" (fun _ => none) 0) emptyLoadState
        ([RecVal.dict ⟨some "x", some "a.txt", some "alice", false, none⟩] ++ [])) ∧
    (loadStore true "alice" (fun _ => none) 0
        (some [⟨"d.json", some (.arr
          [.dict ⟨some "x", some "a.txt", some "alice", false, none⟩,
           .dict ⟨some "x", some "b.txt", some "bob", true, none⟩])⟩])).compiled = [] :=
  ⟨C9_dedup_first_seen true "alice" (fun _ => none) 0 emptyLoadState
      [RecVal.dict ⟨some "x", some "a.txt", some "alice", false, none⟩] []
      ⟨some "x", some "a.txt", some "alice", false, none⟩
      ⟨some "x", some "b.txt", some "bob", true, none⟩ "x" rfl rfl (by decide),
   by decide⟩

/-- Claim C7 (confirmed): with the gate enabled and no bypass, a missing (or
empty) agent-identity variable makes the guard exit 1 with the identity error
on the error stream; the result is a constant independent of the git outputs
and the store, so no store or staging access can influence it, and it is
distinct from the no-conflicts success. -/
theorem C7_missing_agent :
    ∀ (env : Env) (o1 o2 : Option String) (store : Option (List Document))
      (ps : Bool) (piso : String → Option Int) (now : Int),
      gateEnabled env = true →
      bypassActive env.agentMailBypass = false →
      (env.agentName = none ∨ env.agentName = some "") →
      runGuard env o1 o2 store ps piso now = ⟨1, [agentMissingMsg]⟩ := by
  intro env o1 o2 store ps piso now hg hb ha
  simp only [runGuard, hg, Bool.not_true, Bool.false_eq_true, if_false, guardAfterGate, hb,
    Bool.false_eq_true, if_false]
  rcases ha with h | h <;> simp [h]

/-- Witness for C7. -/
theorem C7_witness :
    runGuard ⟨some "1", none, none, none, none⟩ (some "x.txt") none
        (some [⟨"r.json", some (.single (.dict ⟨none, some "*", some "bob", true, none⟩))⟩])
        true (fun _ => none) 0 = ⟨1, [agentMissingMsg]⟩ :=
  C7_missing_agent ⟨some "1", none, none, none, none⟩ (some "x.txt") none
    (some [⟨"r.json", some (.single (.dict ⟨none, some "*", some "bob", true, none⟩))⟩])
    true (fun _ => none) 0 (by decide) (by decide) (Or.inl rfl)

/-- Claim C8 (confirmed): with the gate enabled, a truthy bypass variable
short-circuits the run to exit 0 with exactly one notice line on the error
stream; the result is a constant independent of mode, agent identity, store
contents and staged paths, so the loader never influences it. -/
theorem C8_bypass_short_circuit :
    ∀ (env : Env) (o1 o2 : Option String) (store : Option (List Document))
      (ps : Bool) (piso : String → Option Int) (now : Int),
      gateEnabled env = true →
      bypassActive env.agentMailBypass = true →
      runGuard env o1 o2 store ps piso now = ⟨0, [bypassNotice]⟩ := by
  intro env o1 o2 store ps piso now hg hb
  simp only [runGuard, hg, Bool.not_true, Bool.false_eq_true, if_false, guardAfterGate, hb,
    if_true]

/-- Witness for C8. -/
theorem C8_witness :
    runGuard ⟨some "1", none, some "warn", some "YES", some "alice"⟩ (some "x.txt") none
        (some [⟨"r.json", some (.single (.dict ⟨none, some "*", some "bob", true, none⟩))⟩])
        true (fun _ => none) 0 = ⟨0, [bypassNotice]⟩ :=
  C8_bypass_short_circuit ⟨some "1", none, some "warn", some "YES", some "alice"⟩
    (some "x.txt") none
    (some [⟨"r.json", some (.single (.dict ⟨none, some "*", some "bob", true, none⟩))⟩])
    true (fun _ => none) 0 (by decide) (by decide)

/-- Claim C2 (code bug): `GIT_IDENTITY_ENABLED` set to the truthy value
`"true"` does not enable the guard when `WORKTREES_ENABLED` is unset,
because `os.environ.get("WORKTREES_ENABLED","0")` yields the non-empty
string `"0"`, which short-circuits the Python `or` chain; the guard then
exits 0 with no output even with a conflicting store and staged paths, and
even with the agent identity missing. This contradicts the gate condition
documented in the guard's own comment (lines 20 and 23). -/
theorem C2_gate_shadowed :
    isTruthy "true" = true ∧
    gateEnabled ⟨none, some "true", none, none, none⟩ = false ∧
    runGuard ⟨none, some "true", none, none, none⟩ (some "x.txt") none
        (some [⟨"r.json", some (.single (.dict ⟨none, some "x.txt", some "bob", true, none⟩))⟩])
        true (fun _ => none) 0 = ⟨0, []⟩ := by
  refine ⟨by decide, by decide, ?_⟩
  decide

/-- Claim C10 (confirmed): when the collected staged-path list is empty the
guard (having reached the collection phase: gate enabled, no bypass, agent
present) exits 0 with no output and its result is a constant independent of
the store, which is therefore never consulted; a failing first git call
collects nothing, and a failing second call keeps exactly the paths
gathered by the first. -/
theorem C10_empty_paths :
    (∀ (env : Env) (o1 o2 : Option String) (store : Option (List Document))
      (ps : Bool) (piso : String → Option Int) (now : Int) (a : String),
      gateEnabled env = true →
      bypassActive env.agentMailBypass = false →
      env.agentName = some a → a ≠ "" →
      collectPaths o1 o2 = [] →
      runGuard env o1 o2 store ps piso now = ⟨0, []⟩) ∧
    (∀ o2 : Option String, collectPaths none o2 = []) ∧
    (∀ d1 : String, collectPaths (some d1) none = parseNameOnly d1) := by
  refine ⟨?_, fun o2 => rfl, fun d1 => rfl⟩
  intro env o1 o2 store ps piso now a hg hb ha hne hcp
  simp only [runGuard, hg, Bool.not_true, Bool.false_eq_true, if_false, guardAfterGate, hb,
    ha, hcp]
  rw [if_neg hne]

/-- Witness for C10. -/
theorem C10_witness :
    runGuard ⟨some "1", none, none, none, some "alice"⟩ none (some "ignored")
        (some [⟨"r.json", some (.single (.dict ⟨none, some "*", some "bob", true, none⟩))⟩])
        true (fun _ => none) 0 = ⟨0, []⟩ :=
  C10_empty_paths.1 ⟨some "1", none, none, none, some "alice"⟩ none (some "ignored")
    (some [⟨"r.json", some (.single (.dict ⟨none, some "*", some "bob", true, none⟩))⟩])
    true (fun _ => none) 0 "alice" (by decide) (by decide) rfl (by decide) rfl

/-- Claim C4 (confirmed): a non-empty conflict list always produces the
summary header followed by exactly the first `min 10 n` conflicts in the
required rendering, and in blocking mode the exit status is 1, so
truncation never converts a failure into a success. -/
theorem C4_truncation :
    ∀ (advisory : Bool) (cs : List (String × String × String)), cs ≠ [] →
      (decideOutcome advisory cs).stderr = conflictHeader :: (cs.take 10).map conflictLine ∧
      (decideOutcome advisory cs).stderr.length = 1 + min 10 cs.length ∧
      (decideOutcome advisory cs).exitCode = (if advisory then 0 else 1) := by
  intro advisory cs h
  cases cs with
  | nil => exact absurd rfl h
  | cons c t =>
    refine ⟨rfl, ?_, rfl⟩
    simp only [decideOutcome, List.length_cons, List.length_map, List.length_take]
    omega

/-- Witness for C4: with 15 distinct conflicts in blocking mode, exactly 10
are listed after the header (11 error lines) and the exit status is 1. -/
theorem C4_witness :
    sampleConflicts15 ≠ [] ∧
    ((decideOutcome false sampleConflicts15).stderr =
        conflictHeader :: (sampleConflicts15.take 10).map conflictLine ∧
      (decideOutcome false sampleConflicts15).stderr.length = 1 + min 10 sampleConflicts15.length ∧
      (decideOutcome false sampleConflicts15).exitCode = (if false then 0 else 1)) ∧
    (decideOutcome false sampleConflicts15).stderr.length = 11 ∧
    (decideOutcome false sampleConflicts15).exitCode = 1 :=
  ⟨by decide, C4_truncation false sampleConflicts15 (by decide), by decide, by decide⟩

/-- The post-gate pipeline's error-stream output never depends on the
advisory flag. -/
theorem guardAfterGate_stderr_eq (a1 a2 : Bool) (b n o1 o2 : Option String)
    (store : Option (List Document)) (ps : Bool) (piso : String → Option Int) (now : Int) :
    (guardAfterGate a1 b n o1 o2 store ps piso now).stderr =
      (guardAfterGate a2 b n o1 o2 store ps piso now).stderr := by
  simp only [guardAfterGate]
  by_cases hb : bypassActive b = true
  · simp [hb]
  · simp only [Bool.not_eq_true] at hb
    simp only [hb, Bool.false_eq_true, if_false]
    cases n with
    | none => rfl
    | some a =>
      dsimp only
      by_cases ha : a = ""
      · simp [ha]
      · rw [if_neg ha, if_neg ha]
        cases hcp : collectPaths o1 o2 with
        | nil => rfl
        | cons p t =>
          dsimp only
          exact decideOutcome_stderr_eq a1 a2 _

/-- Claim C5 (confirmed): the stripped, lowered mode value selects advisory
exactly for `warn`, `advisory`, `adv`; an unset variable is blocking; with
conflicts, advisory mode produces the same diagnostics and differs from
blocking only by exiting 0 instead of 1; and changing the mode variable
never changes the guard's error-stream output at all. -/
theorem C5_mode_advisory :
    (∀ s : String, advisoryOf (some s) = true ↔ pyLower (pyStrip s) ∈ advisorySet) ∧
    advisoryOf none = false ∧
    (∀ cs : List (String × String × String),
      (decideOutcome true cs).stderr = (decideOutcome false cs).stderr ∧
      (cs ≠ [] → (decideOutcome true cs).exitCode = 0 ∧ (decideOutcome false cs).exitCode = 1)) ∧
    (∀ (env : Env) (m o1 o2 : Option String) (store : Option (List Document))
      (ps : Bool) (piso : String → Option Int) (now : Int),
      (runGuard ⟨env.worktreesEnabled, env.gitIdentityEnabled, m, env.agentMailBypass,
          env.agentName⟩ o1 o2 store ps piso now).stderr =
        (runGuard env o1 o2 store ps piso now).stderr) := by
  refine ⟨?_, by decide, ?_, ?_⟩
  · intro s
    by_cases hs : s = ""
    · subst hs; decide
    · have hor : pyOr s "block" = s := if_neg hs
      simp [advisoryOf, modeOf, Option.getD, hor]
  · intro cs
    cases cs with
    | nil => exact ⟨rfl, fun h => absurd rfl h⟩
    | cons c t => exact ⟨rfl, fun _ => ⟨rfl, rfl⟩⟩
  · intro env m o1 o2 store ps piso now
    simp only [runGuard]
    have hg : gateEnabled ⟨env.worktreesEnabled, env.gitIdentityEnabled, m,
        env.agentMailBypass, env.agentName⟩ = gateEnabled env := rfl
    rw [hg]
    cases hge : gateEnabled env with
    | false => rfl
    | true =>
      simp only [Bool.not_true, Bool.false_eq_true, if_false]
      exact guardAfterGate_stderr_eq _ _ _ _ _ _ _ _ _ _

/-- Witness for C5. -/
theorem C5_witness :
    (advisoryOf (some " WARN ") = true ↔ pyLower (pyStrip " WARN ") ∈ advisorySet) ∧
    ((decideOutcome true [("p", "f", "h")]).exitCode = 0 ∧
      (decideOutcome false [("p", "f", "h")]).exitCode = 1) :=
  ⟨C5_mode_advisory.1 " WARN ",
   (C5_mode_advisory.2.2.1 [("p", "f", "h")]).2 (by decide)⟩

/-- A document that failed to read or parse contributes nothing. -/
theorem processDoc_content_none (ps : Bool) (a : String) (piso : String → Option Int)
    (now : Int) (st : LoadState) (d : Document) (h : d.content = none) :
    processDoc ps a piso now st d = st := by
  simp only [processDoc, h]
  split <;> rfl

/-- Dropping an unreadable document from the store changes nothing. -/
theorem loadStore_skip_doc (ps : Bool) (a : String) (piso : String → Option Int)
    (now : Int) (docs1 docs2 : List Document) (d : Document) (h : d.content = none) :
    loadStore ps a piso now (some (docs1 ++ d :: docs2)) =
      loadStore ps a piso now (some (docs1 ++ docs2)) := by
  simp only [loadStore]
  rw [List.foldl_append, List.foldl_append, List.foldl_cons,
    processDoc_content_none ps a piso now _ d h]

/-- The guard run only depends on the store through the loader. -/
theorem runGuard_store_congr (env : Env) (o1 o2 : Option String)
    (s1 s2 : Option (List Document)) (ps : Bool) (piso : String → Option Int) (now : Int)
    (h : ∀ a, loadStore ps a piso now s1 = loadStore ps a piso now s2) :
    runGuard env o1 o2 s1 ps piso now = runGuard env o1 o2 s2 ps piso now := by
  simp only [runGuard, guardAfterGate, h]

/-- Claim C6 (confirmed): malformed documents and non-mapping records are
skipped silently with no effect on the rest of the store — removing an
unreadable or unparseable document, or a non-mapping record, leaves the
loader state, and the whole guard run, unchanged, so the remaining
well-formed records still take effect. -/
theorem C6_malformed_skipped :
    (∀ (ps : Bool) (a : String) (piso : String → Option Int) (now : Int)
      (st : LoadState) (d : Document), d.content = none →
      processDoc ps a piso now st d = st) ∧
    (∀ (ps : Bool) (a : String) (piso : String → Option Int) (now : Int) (st : LoadState),
      processRecord ps a piso now st RecVal.other = st) ∧
    (∀ (ps : Bool) (a : String) (piso : String → Option Int) (now : Int)
      (docs1 docs2 : List Document) (d : Document), d.content = none →
      loadStore ps a piso now (some (docs1 ++ d :: docs2)) =
        loadStore ps a piso now (some (docs1 ++ docs2))) ∧
    (∀ (ps : Bool) (a : String) (piso : String → Option Int) (now : Int)
      (st : LoadState) (nm : String) (vs1 vs2 : List RecVal),
      processDoc ps a piso now st ⟨nm, some (.arr (vs1 ++ RecVal.other :: vs2))⟩ =
        processDoc ps a piso now st ⟨nm, some (.arr (vs1 ++ vs2))⟩) ∧
    (∀ (env : Env) (o1 o2 : Option String) (ps : Bool) (piso : String → Option Int)
      (now : Int) (docs1 docs2 : List Document) (d : Document), d.content = none →
      runGuard env o1 o2 (some (docs1 ++ d :: docs2)) ps piso now =
        runGuard env o1 o2 (some (docs1 ++ docs2)) ps piso now) := by
  refine ⟨processDoc_content_none, fun _ _ _ _ _ => rfl, loadStore_skip_doc, ?_, ?_⟩
  · intro ps a piso now st nm vs1 vs2
    simp only [processDoc, recsOf]
    split
    · rfl
    · rw [List.foldl_append, List.foldl_append, List.foldl_cons]
      rfl
  · intro env o1 o2 ps piso now docs1 docs2 d h
    exact runGuard_store_congr env o1 o2 _ _ ps piso now
      (fun a => loadStore_skip_doc ps a piso now docs1 docs2 d h)

/-- Witness for C6: dropping an unreadable document leaves the run
unchanged, and the well-formed document's record still takes effect. -/
theorem C6_witness :
    (runGuard ⟨some "1", none, none, none, some "alice"⟩ (some "x.txt") none
        (some ([⟨"good.json", some (.single (.dict ⟨none, some "x.txt", some "bob", true, none⟩))⟩] ++
          (⟨"bad.json", none⟩ : Document) :: [])) true (fun _ => none) 0 =
      runGuard ⟨some "1", none, none, none, some "alice"⟩ (some "x.txt") none
        (some ([⟨"good.json", some (.single (.dict ⟨none, some "x.txt", some "bob", true, none⟩))⟩] ++ []))
        true (fun _ => none) 0) ∧
    (loadStore true "alice" (fun _ => none) 0
        (some ([⟨"good.json", some (.single (.dict ⟨none, some "x.txt", some "bob", true, none⟩))⟩] ++
          (⟨"bad.json", none⟩ : Document) :: []))).compiled.length = 1 :=
  ⟨C6_malformed_skipped.2.2.2.2 ⟨some "1", none, none, none, some "alice"⟩ (some "x.txt") none
      true (fun _ => none) 0
      [⟨"good.json", some (.single (.dict ⟨none, some "x.txt", some "bob", true, none⟩))⟩] []
      ⟨"bad.json", none⟩ rfl,
   by decide⟩

/-- Liveness of a reservation in terms of the claim's three cases: empty
timestamp, unparseable timestamp, or an instant strictly after `now`. -/
theorem notExpired_iff (piso : String → Option Int) (now : Int) (e : String) :
    notExpired piso now e = true ↔
      (e = "" ∨ piso e = none ∨ ∃ t, piso e = some t ∧ now < t) := by
  simp only [notExpired, parseIsoOpt]
  by_cases he : e = ""
  · simp [he]
  · rw [if_neg he]
    cases hp : piso e with
    | none => simp [he, hp]
    | some t => simp [he, hp]

/-- Characterization of the loader body: a record contributes an entry to
`compiled_patterns` exactly when its stripped pattern is non-empty and
non-virtual, it is exclusive, its stripped holder differs from the (non-empty)
current agent, and it has not expired. -/
theorem processBody_compiled_iff (ps : Bool) (a : String) (piso : String → Option Int)
    (now : Int) (st : LoadState) (r : RawRecord) (ha : a ≠ "") :
    (processBody ps a piso now st r).compiled ≠ st.compiled ↔
      (pyGetStr r.path_pattern ≠ "" ∧
       hasVirtualNS (pyGetStr r.path_pattern) = false ∧
       r.exclusive = true ∧
       pyGetStr r.agent ≠ a ∧
       notExpired piso now (pyGetStr r.expires_ts) = true) := by
  simp only [processBody]
  by_cases h1 : pyGetStr r.path_pattern = ""
  · simp [h1]
  · rw [if_neg h1]
    by_cases h2 : hasVirtualNS (pyGetStr r.path_pattern) = true
    · simp [h1, h2]
    · have h2f : hasVirtualNS (pyGetStr r.path_pattern) = false := by
        simpa using h2
      rw [if_neg h2]
      by_cases h3 : r.exclusive = true
      · rw [if_neg (by simp [h3])]
        by_cases h4 : pyGetStr r.agent ≠ "" ∧ pyGetStr r.agent = a
        · rw [if_pos h4]
          simp [h4.2]
        · have h4f : pyGetStr r.agent ≠ a := by
            rcases not_and_or.mp h4 with h | h
            · intro hc
              exact ha (by rw [← hc]; exact (not_not.mp h))
            · exact h
          rw [if_neg h4]
          by_cases h5 : notExpired piso now (pyGetStr r.expires_ts) = true
          · rw [if_neg (by simp [h5])]
            constructor
            · intro _
              exact ⟨h1, h2f, h3, h4f, h5⟩
            · intro _
              exact append_singleton_ne st.compiled _
          · have h5f : notExpired piso now (pyGetStr r.expires_ts) = false := by
              simpa using h5
            rw [if_pos (by simp [h5f])]
            simp [h5f]
      · have h3f : r.exclusive = false := by simpa using h3
        rw [if_pos (by simp [h3f])]
        simp [h3f]

/-- Claim C1 (corrected): a raw record read from the store enters the
effective set iff, in addition to the claim's four conditions (evaluated on
the stripped field values), its stripped pattern is non-empty and its id, if
present, has not been seen earlier in the enumeration. -/
theorem C1_effective_iff :
    ∀ (ps : Bool) (a : String) (piso : String → Option Int) (now : Int)
      (st : LoadState) (r : RawRecord), a ≠ "" →
      ((processRecord ps a piso now st (.dict r)).compiled ≠ st.compiled ↔
        ((∀ rid, r.id = some rid → rid ∉ st.seenIds) ∧
         pyGetStr r.path_pattern ≠ "" ∧
         hasVirtualNS (pyGetStr r.path_pattern) = false ∧
         r.exclusive = true ∧
         pyGetStr r.agent ≠ a ∧
         (pyGetStr r.expires_ts = "" ∨ piso (pyGetStr r.expires_ts) = none ∨
           ∃ t, piso (pyGetStr r.expires_ts) = some t ∧ now < t))) := by
  intro ps a piso now st r ha
  cases hid : r.id with
  | none =>
    simp only [processRecord, hid]
    rw [processBody_compiled_iff ps a piso now st r ha]
    constructor
    · rintro ⟨hp, hv, he, hag, hexp⟩
      exact ⟨fun rid hrid => Option.noConfusion hrid, hp, hv, he, hag,
        (notExpired_iff piso now _).mp hexp⟩
    · rintro ⟨_, hp, hv, he, hag, hexp⟩
      exact ⟨hp, hv, he, hag, (notExpired_iff piso now _).mpr hexp⟩
  | some rid =>
    simp only [processRecord, hid]
    by_cases hmem : rid ∈ st.seenIds
    · rw [if_pos hmem]
      constructor
      · intro h
        exact absurd rfl h
      · rintro ⟨hd, _⟩
        exact absurd hmem (hd rid rfl)
    · rw [if_neg hmem]
      have hc : ({st with seenIds := rid :: st.seenIds} : LoadState).compiled = st.compiled := rfl
      rw [← hc]
      rw [processBody_compiled_iff ps a piso now _ r ha]
      constructor
      · rintro ⟨hp, hv, he, hag, hexp⟩
        exact ⟨fun rid2 hrid2 => (Option.some.inj hrid2) ▸ hmem, hp, hv, he,
          hag, (notExpired_iff piso now _).mp hexp⟩
      · rintro ⟨_, hp, hv, he, hag, hexp⟩
        exact ⟨hp, hv, he, hag, (notExpired_iff piso now _).mpr hexp⟩

/-- Counterexample for claim C1 as stated: a record with an empty
`path_pattern` is exclusive, foreign, never-expiring and carries no
virtual-namespace prefix — all four stated conditions — yet it is excluded
from the effective set. -/
theorem C1_counterexample :
    ((⟨none, some "", some "bob", true, none⟩ : RawRecord).exclusive = true ∧
     pyGetStr (⟨none, some "", some "bob", true, none⟩ : RawRecord).agent ≠ "alice" ∧
     (⟨none, some "", some "bob", true, none⟩ : RawRecord).expires_ts = none ∧
     hasVirtualNS (pyGetStr (⟨none, some "", some "bob", true, none⟩ : RawRecord).path_pattern) =
       false) ∧
    (loadStore true "alice" (fun _ => none) 0
        (some [⟨"a.json", some (.single (.dict ⟨none, some "", some "bob", true, none⟩))⟩])).compiled =
      [] := by
  decide

/-- Witness for C1. -/
theorem C1_witness :
    (processRecord true "alice" (fun _ => none) 0 emptyLoadState
        (.dict ⟨some "r9", some "src/*.py", some "bob", true, none⟩)).compiled ≠
      emptyLoadState.compiled ↔
      ((∀ rid, (⟨some "r9", some "src/*.py", some "bob", true, none⟩ : RawRecord).id = some rid →
          rid ∉ emptyLoadState.seenIds) ∧
       pyGetStr (some "src/*.py") ≠ "" ∧
       hasVirtualNS (pyGetStr (some "src/*.py")) = false ∧
       (⟨some "r9", some "src/*.py", some "bob", true, none⟩ : RawRecord).exclusive = true ∧
       pyGetStr (some "bob") ≠ "alice" ∧
       (pyGetStr (none : Option String) = "" ∨
         (fun (_ : String) => (none : Option Int)) (pyGetStr (none : Option String)) = none ∨
         ∃ t, (fun (_ : String) => (none : Option Int)) (pyGetStr (none : Option String)) = some t ∧
           (0 : Int) < t)) :=
  C1_effective_iff true "alice" (fun _ => none) 0 emptyLoadState
    ⟨some "r9", some "src/*.py", some "bob", true, none⟩ (by decide)

/-- Stripping a prefix is idempotent. -/
theorem dropWhile_idem (p : Char → Bool) (l : List Char) :
    (l.dropWhile p).dropWhile p = l.dropWhile p := by
  induction l with
  | nil => rfl
  | cons c t ih =>
    rw [List.dropWhile_cons]
    by_cases h : p c = true
    · rw [if_pos h]
      exact ih
    · rw [if_neg h, List.dropWhile_cons, if_neg h]

/-- The head surviving a `dropWhile` fails the predicate. -/
theorem head_dropWhile_false (p : Char → Bool) :
    ∀ (l : List Char) (c : Char), (l.dropWhile p).head? = some c → p c = false := by
  intro l
  induction l with
  | nil => intro c h; cases h
  | cons a t ih =>
    intro c h
    rw [List.dropWhile_cons] at h
    by_cases hp : p a = true
    · rw [if_pos hp] at h
      exact ih c h
    · rw [if_neg hp] at h
      have : a = c := by simpa using h
      subst this
      simpa using hp

/-- A list is its own first suffix. -/
theorem mem_suffixes_self {α : Type} (l : List α) : l ∈ suffixes l := by
  cases l <;> simp [suffixes]

/-- Prepending a `**` segment only widens a segment match. -/
theorem matchSegsD_dstar (d : Bool) (ps ss : List (List Char))
    (h : matchSegsD d ps ss = true) :
    matchSegsD d (['*', '*'] :: ps) ss = true := by
  have he : matchSegsD d (['*', '*'] :: ps) ss =
      (suffixes ss).any (fun t => matchSegsD d ps t) := rfl
  rw [he, List.any_eq_true]
  exact ⟨ss, mem_suffixes_self ss, h⟩

/-- Widening of the engine under leading-slash stripping: whatever a raw
pattern matches, its slash-stripped normalization also matches. Stripping
leaves the body intact; it can only turn an anchored pattern without an
internal slash into an unanchored one, which matches strictly more paths. -/
theorem gitMatchesCore_lstrip (q p : String) (h : gitMatchesCore q p = true) :
    gitMatchesCore (lstripSlashes q) p = true := by
  have hstrip : gmStripped (lstripSlashes q) = gmStripped q := by
    show ((q.data.dropWhile isSlash).dropWhile isSlash) = q.data.dropWhile isSlash
    exact dropWhile_idem isSlash q.data
  have hdir : gmDir (lstripSlashes q) = gmDir q := by
    unfold gmDir
    rw [hstrip]
  have hbody : gmBody (lstripSlashes q) = gmBody q := by
    unfold gmBody
    rw [hstrip, hdir]
  have hh : ((lstripSlashes q).data.head? = some '/') → False := by
    intro hcontra
    have hf := head_dropWhile_false isSlash q.data '/' hcontra
    simp [isSlash] at hf
  have hanch : gmAnchored (lstripSlashes q) = (gmBody q).contains '/' := by
    unfold gmAnchored
    rw [hbody]
    have hd : decide ((lstripSlashes q).data.head? = some '/') = false := by
      simp only [decide_eq_false_iff_not]
      exact hh
    rw [hd, Bool.false_or]
  unfold gitMatchesCore at h ⊢
  rw [hbody, hdir, hanch]
  by_cases hbe : (gmBody q).isEmpty = true
  · rw [if_pos hbe]
  · rw [if_neg hbe] at h ⊢
    by_cases hcon : (gmBody q).contains '/' = true
    · rw [hcon]
      have hq : gmAnchored q = true := by
        unfold gmAnchored
        rw [hcon]
        simp
      rw [hq] at h
      rw [if_pos rfl]
      simpa using h
    · have hcon0 : (gmBody q).contains '/' = false := by simpa using hcon
      rw [hcon0, if_neg (by simp)]
      by_cases hqh : decide (q.data.head? = some '/') = true
      · have hq : gmAnchored q = true := by
          unfold gmAnchored
          rw [hqh]
          simp
        rw [hq, if_pos rfl] at h
        exact matchSegsD_dstar _ _ _ h
      · have hq : gmAnchored q = false := by
          unfold gmAnchored
          rw [hcon0]
          simpa using hqh
        rw [hq, if_neg (by simp)] at h
        exact h

/-- A line that does not start with `!` behaves positively. -/
theorem lineMatchRes_nonneg (l p : String) (h : ¬ l.data.head? = some '!') :
    lineMatchRes l p = if gitMatchesCore l p then some true else none := by
  simp [lineMatchRes, h]

/-- Over negation-free lines, the last-match-wins fold is just disjunction. -/
theorem psFold_nonneg (p : String) :
    ∀ (lines : List String) (acc : Option Bool),
      (∀ l ∈ lines, ¬ l.data.head? = some '!') →
      ((lines.foldl
          (fun acc l =>
            match lineMatchRes l p with
            | none => acc
            | some b => some b)
          acc).getD false) =
        (acc.getD false || lines.any (fun l => gitMatchesCore l p)) := by
  intro lines
  induction lines with
  | nil =>
    intro acc h
    simp
  | cons l t ih =>
    intro acc h
    have hl := h l (List.mem_cons_self l t)
    have ht : ∀ x ∈ t, ¬ x.data.head? = some '!' :=
      fun x hx => h x (List.mem_cons_of_mem l hx)
    rw [List.foldl_cons, List.any_cons]
    rw [lineMatchRes_nonneg l p hl]
    by_cases hm : gitMatchesCore l p = true
    · rw [if_pos hm]
      dsimp only
      rw [ih (some true) ht]
      simp [hm]
    · have hm0 : gitMatchesCore l p = false := by simpa using hm
      rw [if_neg hm]
      dsimp only
      rw [ih acc ht]
      simp [hm0]

/-- Union matching over negation-free lines is existence of a matching line. -/
theorem psMatchFile_nonneg (lines : List String) (p : String)
    (h : ∀ l ∈ lines, ¬ l.data.head? = some '!') :
    psMatchFile lines p = lines.any (fun l => gitMatchesCore l p) := by
  have := psFold_nonneg p lines none h
  simpa [psMatchFile] using this

/-- A one-line negation-free spec matches exactly when its line does. -/
theorem psMatchFile_single (q p : String) (h : ¬ q.data.head? = some '!') :
    psMatchFile [q] p = gitMatchesCore q p := by
  rw [psMatchFile_nonneg [q] p (by simpa using h)]
  simp

/-- The loader body preserves the invariant. -/
theorem processBody_wf (ps : Bool) (a : String) (piso : String → Option Int) (now : Int)
    (st : LoadState) (r : RawRecord) (h : StateWF ps st) :
    StateWF ps (processBody ps a piso now st r) := by
  simp only [processBody]
  repeat' split
  any_goals exact h
  constructor
  · simp only [List.map_append, ← h.1]
    rfl
  · intro e he
    rcases List.mem_append.mp he with he | he
    · exact h.2 e he
    · have : e = ⟨compileOne ps (pyGetStr r.path_pattern), pyGetStr r.path_pattern,
          lstripSlashes (repSlash (pyGetStr r.path_pattern)), pyGetStr r.agent⟩ := by
        simpa using he
      subst this
      exact ⟨rfl, rfl⟩

/-- One record preserves the invariant. -/
theorem processRecord_wf (ps : Bool) (a : String) (piso : String → Option Int) (now : Int)
    (st : LoadState) (v : RecVal) (h : StateWF ps st) :
    StateWF ps (processRecord ps a piso now st v) := by
  cases v with
  | other => exact h
  | dict r =>
    cases hid : r.id with
    | none =>
      simp only [processRecord, hid]
      exact processBody_wf ps a piso now st r h
    | some rid =>
      simp only [processRecord, hid]
      by_cases hmem : rid ∈ st.seenIds
      · rw [if_pos hmem]
        exact h
      · rw [if_neg hmem]
        exact processBody_wf ps a piso now _ r ⟨h.1, h.2⟩

/-- One document preserves the invariant. -/
theorem processDoc_wf (ps : Bool) (a : String) (piso : String → Option Int) (now : Int)
    (st : LoadState) (d : Document) (h : StateWF ps st) :
    StateWF ps (processDoc ps a piso now st d) := by
  simp only [processDoc]
  split
  · exact h
  · cases hd : d.content with
    | none => exact h
    | some c =>
      exact foldl_preserve (StateWF ps) (processRecord ps a piso now)
        (fun s x hs => processRecord_wf ps a piso now s x hs) (recsOf c) st h

/-- The loader always produces a well-formed state. -/
theorem loadStore_wf (ps : Bool) (a : String) (piso : String → Option Int) (now : Int)
    (store : Option (List Document)) : StateWF ps (loadStore ps a piso now store) := by
  have hempty : StateWF ps emptyLoadState :=
    ⟨rfl, fun e he => absurd he (List.not_mem_nil e)⟩
  cases store with
  | none => exact hempty
  | some docs =>
    exact foldl_preserve (StateWF ps) (processDoc ps a piso now)
      (fun s x hs => processDoc_wf ps a piso now s x hs) docs emptyLoadState hempty

/-- Phase A is sound on negation-free effective sets: if any individual
compiled entry matches a normalized path, the union matcher matches it too. -/
theorem entry_match_implies_union (cp : List CompiledEntry) (lines : List String)
    (norm : String)
    (hlines : lines = cp.map (fun e => e.pattNorm))
    (hwfE : ∀ e ∈ cp, EntryWF true e)
    (hneg : ∀ e ∈ cp, ¬ (e.pattNorm).data.head? = some '!')
    (e : CompiledEntry) (he : e ∈ cp) (hm : entryMatches e norm = true) :
    psMatchFile lines norm = true := by
  have hent := hwfE e he
  have hq : entryMatches e norm = psMatchFile [repSlash e.patt] norm := by
    simp [entryMatches, hent.1, compileOne]
  have hqn : ¬ (repSlash e.patt).data.head? = some '!' := by
    intro hcontra
    apply hneg e he
    rw [hent.2]
    cases hd : (repSlash e.patt).data with
    | nil =>
      rw [hd] at hcontra
      cases hcontra
    | cons c t =>
      rw [hd] at hcontra
      have hc : c = '!' := by simpa using hcontra
      subst hc
      show ((repSlash e.patt).data.dropWhile isSlash).head? = some '!'
      rw [hd]
      rw [List.dropWhile_cons, if_neg (by simp [isSlash])]
      exact hcontra
  rw [hq, psMatchFile_single _ _ hqn] at hm
  have hm2 : gitMatchesCore e.pattNorm norm = true := by
    rw [hent.2]
    exact gitMatchesCore_lstrip _ _ hm
  rw [psMatchFile_nonneg lines norm (by
    intro l hl
    rw [hlines] at hl
    rcases List.mem_map.mp hl with ⟨e2, he2, hl2⟩
    rw [← hl2]
    exact hneg e2 he2)]
  rw [List.any_eq_true]
  refine ⟨e.pattNorm, ?_, hm2⟩
  rw [hlines]
  exact List.mem_map_of_mem _ he

/-- Phase B over entries none of which match yields no conflicts. -/
theorem detailedMatches_eq_nil (cp : List CompiledEntry) (p : String)
    (h : ∀ e ∈ cp, entryMatches e (normPath p) = false) :
    detailedMatches cp p = [] := by
  have hgen : ∀ (l : List CompiledEntry),
      (∀ e ∈ l, entryMatches e (normPath p) = false) →
      ∀ acc : List (String × String × String),
        List.foldl
          (fun acc e =>
            if entryMatches e (normPath p) then acc ++ [(e.patt, p, e.holder)] else acc)
          acc l = acc := by
    intro l
    induction l with
    | nil => intro _ acc; rfl
    | cons e t ih =>
      intro hl acc
      rw [List.foldl_cons]
      have he0 : entryMatches e (normPath p) = false := hl e (List.mem_cons_self e t)
      rw [if_neg (by simp [he0])]
      exact ih (fun x hx => hl x (List.mem_cons_of_mem e hx)) acc
  exact hgen cp h []

/-- Direct testing with no effective patterns yields no conflicts. -/
theorem directConflicts_nil_cp (paths : List String) : directConflicts [] paths = [] := by
  have hgen : ∀ (l : List String) (acc : List (String × String × String)),
      List.foldl (fun acc p => acc ++ detailedMatches [] p) acc l = acc := by
    intro l
    induction l with
    | nil => intro acc; rfl
    | cons p t ih =>
      intro acc
      rw [List.foldl_cons]
      rw [show acc ++ detailedMatches [] p = acc from by rw [show detailedMatches [] p = [] from rfl, List.append_nil]]
      exact ih acc
  exact hgen paths []

/-- Without the engine, the union is never built. -/
theorem buildUnion_false (l : List String) : buildUnion false l = none := by
  cases l <;> simp [buildUnion]

/-- Two-phase matching with no union spec is direct testing. -/
theorem twoPhase_none_eq_direct (cp : List CompiledEntry) (paths : List String) :
    allConflicts cp none paths = directConflicts cp paths := by
  cases cp with
  | nil => rw [directConflicts_nil_cp]; rfl
  | cons c t => rfl

/-- Two-phase matching with the union spec over a negation-free well-formed
effective set is direct testing. -/
theorem twoPhase_union_eq_direct (cp : List CompiledEntry) (paths : List String)
    (hwfE : ∀ e ∈ cp, EntryWF true e)
    (hneg : ∀ e ∈ cp, ¬ (e.pattNorm).data.head? = some '!') :
    allConflicts cp (buildUnion true (cp.map (fun e => e.pattNorm))) paths =
      directConflicts cp paths := by
  cases hcp : cp with
  | nil => rw [directConflicts_nil_cp]; rfl
  | cons c t =>
    subst hcp
    cases hl : (c :: t).map (fun e => e.pattNorm) with
    | nil => cases hl
    | cons x xs =>
      have hu : buildUnion true (x :: xs) = some (x :: xs) := rfl
      rw [hu]
      have hstep : (fun (acc : List (String × String × String)) p =>
          if !(psMatchFile (x :: xs) (normPath p)) then acc
          else acc ++ detailedMatches (c :: t) p) =
          (fun (acc : List (String × String × String)) p =>
            acc ++ detailedMatches (c :: t) p) := by
        funext acc p
        by_cases hm : psMatchFile (x :: xs) (normPath p) = true
        · rw [hm]
          rfl
        · have hm0 : psMatchFile (x :: xs) (normPath p) = false := by simpa using hm
          have hnone : ∀ e ∈ (c :: t : List CompiledEntry),
              entryMatches e (normPath p) = false := by
            intro e he
            by_contra hcontra
            have hON : entryMatches e (normPath p) = true := by simpa using hcontra
            have := entry_match_implies_union (c :: t) (x :: xs) (normPath p) hl.symm
              hwfE hneg e he hON
            rw [this] at hm0
            cases hm0
          rw [detailedMatches_eq_nil (c :: t) p hnone, List.append_nil, hm0]
          rfl
      show List.foldl
          (fun (acc : List (String × String × String)) p =>
            if !(psMatchFile (x :: xs) (normPath p)) then acc
            else acc ++ detailedMatches (c :: t) p)
          [] paths =
        List.foldl
          (fun (acc : List (String × String × String)) p => acc ++ detailedMatches (c :: t) p)
          [] paths
      rw [hstep]

/-- Claim C3 (corrected): the two-phase matcher coincides with direct
per-pattern testing whenever the engine is unavailable (phase B then runs
unconditionally), or the engine is available and no effective normalized
pattern begins with the gitignore negation marker; under that proviso phase
A rejection implies no individual pattern matches. With a negation pattern
in the effective set the equivalence fails (see the counterexample). -/
theorem C3_two_phase_equiv :
    ∀ (ps : Bool) (a : String) (piso : String → Option Int) (now : Int)
      (store : Option (List Document)) (paths : List String),
      (ps = false ∨
        ∀ e ∈ (loadStore ps a piso now store).compiled,
          ¬ (e.pattNorm).data.head? = some '!') →
      allConflicts (loadStore ps a piso now store).compiled
          (buildUnion ps (loadStore ps a piso now store).allPatternStrings) paths =
        directConflicts (loadStore ps a piso now store).compiled paths := by
  intro ps a piso now store paths hcond
  have hwf := loadStore_wf ps a piso now store
  cases hps : ps with
  | false =>
    rw [buildUnion_false]
    exact twoPhase_none_eq_direct _ _
  | true =>
    subst hps
    rcases hcond with h | hneg
    · exact Bool.noConfusion h
    · rw [hwf.1]
      exact twoPhase_union_eq_direct _ paths hwf.2 hneg

/-- Counterexample for claim C3 as stated: with the engine available, the
effective reservation set holds the patterns `*.py` and `!foo.py` (both
exclusive, foreign, unexpired), and the union matcher resolves the negation
line last, so phase A rejects the candidate path `foo.py` and the two-phase
matcher reports no conflicts — while direct testing of every pattern
individually reports the `*.py` conflict. -/
theorem C3_counterexample :
    allConflicts (loadStore true "alice" (fun _ => none) 0 negStore).compiled
        (buildUnion true (loadStore true "alice" (fun _ => none) 0 negStore).allPatternStrings)
        ["foo.py"] = [] ∧
    directConflicts (loadStore true "alice" (fun _ => none) 0 negStore).compiled ["foo.py"] =
      [("*.py", "foo.py", "bob")] := by
  decide

/-- Witness for C3. -/
theorem C3_witness :
    allConflicts (loadStore true "alice" (fun _ => none) 0 posStore).compiled
        (buildUnion true (loadStore true "alice" (fun _ => none) 0 posStore).allPatternStrings)
        ["src/a.py", "README.md"] =
      directConflicts (loadStore true "alice" (fun _ => none) 0 posStore).compiled
        ["src/a.py", "README.md"] :=
  C3_two_phase_equiv true "alice" (fun _ => none) 0 posStore ["src/a.py", "README.md"]
    (Or.inr (by decide))
